import Mathlib

/-!
Verification of the event-record layer of interpol
(src/interpol-rs/src/mpi_events/collectives/mpi_ibcast.rs).

The development shallowly embeds:
- the `MpiIbcast` event-record structure and its direct constructor `new`;
- the derive_builder-generated `MpiIbcastBuilder` (optional staging fields,
  chained setters, fallible `build`);
- the serde-derived field-name-keyed encoding and decoding of a record;
- the typetag-style type-tagged (type-erased) encoding of a stream of records;
- the `Register::register` operation: a fallible append onto a shared event
  log, which first calls `try_reserve_exact(2 * events.len())` and then pushes
  the boxed record.

Machine integers are modelled as unbounded `Int` / `Nat`: no arithmetic is
ever performed on the stored field values, so widths are irrelevant here.
-/

set_option autoImplicit false

namespace Interpol

/-- Modelled from the spec: the concrete field-value domain types
(`crate::types`: rank, communicator id, request id, timestamp counter) are
external collaborators, treated as opaque semantic scalars (spec section 1).
Ranks and communicator ids are signed; timestamp-counter values are
non-negative tick counts. -/
abbrev MpiRank := Int

/-- Modelled from the spec: opaque communicator identity scalar. -/
abbrev MpiComm := Int

/-- Modelled from the spec: opaque asynchronous-request identity scalar. -/
abbrev MpiReq := Int

/-- Modelled from the spec: timestamp-counter value (non-negative ticks). -/
abbrev Tsc := Nat

/-- The `MpiIbcast` event record: information about one `MPI_Ibcast` call
(mpi_ibcast.rs, lines 18-27). `nb_bytes` is a `u32` in the source, hence
a `Nat` here. Equality is structural, as derived by `PartialEq`. -/
structure MpiIbcast where
  current_rank : MpiRank
  root_rank : MpiRank
  nb_bytes : Nat
  comm : MpiComm
  req : MpiReq
  tsc : Tsc
  duration : Tsc
deriving DecidableEq, Repr

/-- `MpiIbcast::new`: assembles the record from the given field values
(mpi_ibcast.rs, lines 31-49). It never fails. -/
def MpiIbcast.new (current_rank : MpiRank) (root_rank : MpiRank)
    (nb_bytes : Nat) (comm : MpiComm) (req : MpiReq) (tsc : Tsc)
    (duration : Tsc) : MpiIbcast :=
  { current_rank := current_rank, root_rank := root_rank,
    nb_bytes := nb_bytes, comm := comm, req := req, tsc := tsc,
    duration := duration }

/-- The builder generated by `#[derive(Builder)]` (derive_builder crate) on
`MpiIbcast`: one optional staging slot per field, all initially unset. -/
structure MpiIbcastBuilder where
  current_rank : Option MpiRank := none
  root_rank : Option MpiRank := none
  nb_bytes : Option Nat := none
  comm : Option MpiComm := none
  req : Option MpiReq := none
  tsc : Option Tsc := none
  duration : Option Tsc := none
deriving DecidableEq, Repr

/-- `MpiIbcastBuilder::default()`: the builder with every field unset. -/
def MpiIbcastBuilder.mkDefault : MpiIbcastBuilder := {}

/-- Builder setter for `current_rank` (generated by derive_builder). -/
def MpiIbcastBuilder.setCurrentRank (b : MpiIbcastBuilder) (v : MpiRank) :
    MpiIbcastBuilder :=
  { b with current_rank := some v }

/-- Builder setter for `root_rank`. -/
def MpiIbcastBuilder.setRootRank (b : MpiIbcastBuilder) (v : MpiRank) :
    MpiIbcastBuilder :=
  { b with root_rank := some v }

/-- Builder setter for `nb_bytes`. -/
def MpiIbcastBuilder.setNbBytes (b : MpiIbcastBuilder) (v : Nat) :
    MpiIbcastBuilder :=
  { b with nb_bytes := some v }

/-- Builder setter for `comm`. -/
def MpiIbcastBuilder.setComm (b : MpiIbcastBuilder) (v : MpiComm) :
    MpiIbcastBuilder :=
  { b with comm := some v }

/-- Builder setter for `req`. -/
def MpiIbcastBuilder.setReq (b : MpiIbcastBuilder) (v : MpiReq) :
    MpiIbcastBuilder :=
  { b with req := some v }

/-- Builder setter for `tsc`. -/
def MpiIbcastBuilder.setTsc (b : MpiIbcastBuilder) (v : Tsc) :
    MpiIbcastBuilder :=
  { b with tsc := some v }

/-- Builder setter for `duration`. -/
def MpiIbcastBuilder.setDuration (b : MpiIbcastBuilder) (v : Tsc) :
    MpiIbcastBuilder :=
  { b with duration := some v }

/-- Extracting one staged field in `build()`: an unset field yields the
uninitialized-field construction error carrying the field name (modelling
derive_builder UninitializedFieldError). -/
def requireField {A : Type} (name : String) : Option A → Except String A
  | none => Except.error name
  | some v => Except.ok v

/-- `MpiIbcastBuilder::build()` (generated by derive_builder): fails with an
uninitialized-field error naming the first field never set, in declaration
order; otherwise assembles the record from the staged values. On failure no
record value is produced (the error carries only the field name). -/
def MpiIbcastBuilder.build (b : MpiIbcastBuilder) : Except String MpiIbcast := do
  let current_rank ← requireField "current_rank" b.current_rank
  let root_rank ← requireField "root_rank" b.root_rank
  let nb_bytes ← requireField "nb_bytes" b.nb_bytes
  let comm ← requireField "comm" b.comm
  let req ← requireField "req" b.req
  let tsc ← requireField "tsc" b.tsc
  let duration ← requireField "duration" b.duration
  Except.ok (MpiIbcast.new current_rank root_rank nb_bytes comm req tsc
    duration)

/-- One call to a builder setter, carrying the value passed to it. A list of
these models an arbitrary sequence of chained setter calls. -/
inductive SetterCall where
  | currentRank (v : MpiRank)
  | rootRank (v : MpiRank)
  | nbBytes (v : Nat)
  | comm (v : MpiComm)
  | req (v : MpiReq)
  | tsc (v : Tsc)
  | duration (v : Tsc)
deriving DecidableEq, Repr

/-- Apply one setter call to a builder. -/
def applyCall (b : MpiIbcastBuilder) : SetterCall → MpiIbcastBuilder
  | SetterCall.currentRank v => b.setCurrentRank v
  | SetterCall.rootRank v => b.setRootRank v
  | SetterCall.nbBytes v => b.setNbBytes v
  | SetterCall.comm v => b.setComm v
  | SetterCall.req v => b.setReq v
  | SetterCall.tsc v => b.setTsc v
  | SetterCall.duration v => b.setDuration v

/-- Apply a sequence of setter calls, left to right (chained method calls). -/
def applyCalls (b : MpiIbcastBuilder) (cs : List SetterCall) : MpiIbcastBuilder :=
  cs.foldl applyCall b

/-- Whether a setter call sets `current_rank`. -/
def setsCurrentRank : SetterCall → Bool
  | SetterCall.currentRank _ => true
  | _ => false

/-- Whether a setter call sets `root_rank`. -/
def setsRootRank : SetterCall → Bool
  | SetterCall.rootRank _ => true
  | _ => false

/-- Whether a setter call sets `nb_bytes`. -/
def setsNbBytes : SetterCall → Bool
  | SetterCall.nbBytes _ => true
  | _ => false

/-- Whether a setter call sets `comm`. -/
def setsComm : SetterCall → Bool
  | SetterCall.comm _ => true
  | _ => false

/-- Whether a setter call sets `req`. -/
def setsReq : SetterCall → Bool
  | SetterCall.req _ => true
  | _ => false

/-- Whether a setter call sets `tsc`. -/
def setsTsc : SetterCall → Bool
  | SetterCall.tsc _ => true
  | _ => false

/-- Whether a setter call sets `duration`. -/
def setsDuration : SetterCall → Bool
  | SetterCall.duration _ => true
  | _ => false

/-- Modelled from the spec: a second Event Record shape. The repository has
one record shape per intercepted primitive (spec sections 1 and 2 name
broadcast, send, reduce); only the `MPI_Ibcast` shape is under src/, so a
minimal send-like shape is modelled here to exercise the heterogeneous
type-tagged stream of section 8. Its exact field set is not fixed by the
spec; like every Event Record it is a closed tuple of opaque scalars. -/
structure MpiSend where
  current_rank : MpiRank
  nb_bytes : Nat
  tsc : Tsc
deriving DecidableEq, Repr

/-- A type-erased Event Record (a `Box<dyn Register>` in the event log): one
constructor per concrete record shape. The `ibcast` shape is the one under
src/; `send` is the spec-modelled second shape. -/
inductive DynEvent where
  | ibcast (r : MpiIbcast)
  | send (s : MpiSend)
deriving DecidableEq, Repr

/-- The error returned by a failed `Vec::try_reserve_exact`: the backing
allocator could not provide the requested storage. (The capacity-overflow
kind of `TryReserveError` cannot arise with unbounded lengths.) -/
inductive TryReserveError where
  | allocError
deriving DecidableEq, Repr

/-- The event log `Vec<Box<dyn Register>>` together with its allocation
environment: `events` are the stored elements in order, `cap` the currently
reserved backing capacity, and `memLimit` the allocator ceiling — the largest
total capacity the backing allocator is able to provide (spec section 8:
a storage layer that rejects growth requests above a configured capacity). -/
structure EventLog where
  events : List DynEvent
  cap : Nat
  memLimit : Nat
deriving DecidableEq, Repr

/-- An empty event log with no reserved capacity, under allocator ceiling
`m`. -/
def emptyLog (m : Nat) : EventLog :=
  { events := [], cap := 0, memLimit := m }

/-- `Vec::try_reserve_exact(additional)`: ensure capacity for at least
`len + additional` elements. A no-op when the current capacity already
suffices; otherwise the allocator grants the new capacity exactly when it is
within the ceiling, and on refusal the vector is left untouched and the
error is returned. -/
def tryReserveExact (l : EventLog) (additional : Nat) :
    Except TryReserveError EventLog :=
  if l.events.length + additional ≤ l.cap then Except.ok l
  else if l.events.length + additional ≤ l.memLimit then
    Except.ok { l with cap := l.events.length + additional }
  else Except.error TryReserveError.allocError

/-- `Vec::push`: append one element, growing capacity incrementally if the
element does not fit (the infallible growth path of the underlying storage;
spec section 4.3 edge case). -/
def pushEvent (l : EventLog) (e : DynEvent) : EventLog :=
  { l with events := l.events ++ [e],
           cap := max l.cap (l.events.length + 1) }

/-- The amount of extra capacity `register` asks for: the argument
`2 * events.len()` passed to `try_reserve_exact` (mpi_ibcast.rs, line 56). -/
def registerReserveRequest (l : EventLog) : Nat :=
  2 * l.events.length

/-- `<MpiIbcast as Register>::register` (mpi_ibcast.rs, lines 54-59): first
`events.try_reserve_exact(2 * events.len())?`, then push the boxed record.
The mutable reference is modelled by state passing: the second component is
the event log after the call; the `?` early return on a reservation failure
leaves the log exactly as it was. -/
def MpiIbcast.register (self : MpiIbcast) (events : EventLog) :
    Except TryReserveError Unit × EventLog :=
  match tryReserveExact events (registerReserveRequest events) with
  | Except.error e => (Except.error e, events)
  | Except.ok events =>
    (Except.ok (), pushEvent events (DynEvent.ibcast self))

/-- Register a list of records one after the other, stopping at the first
failure (the sequential single-writer usage of spec section 5). -/
def registerAll (rs : List MpiIbcast) (l : EventLog) :
    Except TryReserveError Unit × EventLog :=
  match rs with
  | [] => (Except.ok (), l)
  | r :: rest =>
    match MpiIbcast.register r l with
    | (Except.ok _, l) => registerAll rest l
    | (Except.error e, l) => (Except.error e, l)

/-- A field name appearing in the serde encoding of a record. One
constructor per distinct field name occurring across the record shapes. -/
inductive FieldName where
  | current_rank
  | root_rank
  | nb_bytes
  | comm
  | req
  | tsc
  | duration
deriving DecidableEq, Repr

/-- The encoding of one record is an ordered mapping from field name to
(integer) field value, as produced by the serde derive for a struct of
integer fields. -/
abbrev JMap := List (FieldName × Int)

/-- Name-based lookup in an encoded mapping: the value of the first entry
carrying the requested field name (how the serde-derived deserializer binds
encoded entries to struct fields). -/
def lookupF (k : FieldName) : JMap → Option Int
  | [] => none
  | (k₂, v) :: m => if k = k₂ then some v else lookupF k m

/-- Read a required field out of an encoded mapping; a missing field is a
decoding error naming the field. -/
def getField (m : JMap) (k : FieldName) : Except String Int :=
  match lookupF k m with
  | none => Except.error "missing field"
  | some v => Except.ok v

/-- Interpret an encoded integer as an unsigned field value: negative
numbers are rejected (the serde deserializer for an unsigned integer field
fails on them). -/
def asNat (v : Int) : Except String Nat :=
  match v with
  | Int.ofNat n => Except.ok n
  | Int.negSucc _ => Except.error "negative value for unsigned field"

/-- Serde serialization of `MpiIbcast` (derive on lines 18-27): the fields
in declaration order, each keyed by its name. -/
def encode (r : MpiIbcast) : JMap :=
  [(FieldName.current_rank, r.current_rank),
   (FieldName.root_rank, r.root_rank),
   (FieldName.nb_bytes, (r.nb_bytes : Int)),
   (FieldName.comm, r.comm),
   (FieldName.req, r.req),
   (FieldName.tsc, (r.tsc : Int)),
   (FieldName.duration, (r.duration : Int))]

/-- Serde deserialization of `MpiIbcast`: each field is bound by name from
the encoded mapping, failing if a required field is absent or of the wrong
shape (here: negative where the field is unsigned). -/
def decode (m : JMap) : Except String MpiIbcast := do
  let current_rank ← getField m FieldName.current_rank
  let root_rank ← getField m FieldName.root_rank
  let nb_bytes ← asNat (← getField m FieldName.nb_bytes)
  let comm ← getField m FieldName.comm
  let req ← getField m FieldName.req
  let tsc ← asNat (← getField m FieldName.tsc)
  let duration ← asNat (← getField m FieldName.duration)
  Except.ok (MpiIbcast.new current_rank root_rank nb_bytes comm req tsc
    duration)

/-- Serde serialization of the spec-modelled `MpiSend` shape. -/
def encodeSend (s : MpiSend) : JMap :=
  [(FieldName.current_rank, s.current_rank),
   (FieldName.nb_bytes, (s.nb_bytes : Int)),
   (FieldName.tsc, (s.tsc : Int))]

/-- Serde deserialization of the spec-modelled `MpiSend` shape. -/
def decodeSend (m : JMap) : Except String MpiSend := do
  let current_rank ← getField m FieldName.current_rank
  let nb_bytes ← asNat (← getField m FieldName.nb_bytes)
  let tsc ← asNat (← getField m FieldName.tsc)
  Except.ok { current_rank := current_rank, nb_bytes := nb_bytes, tsc := tsc }

/-- Modelled from the spec: the type discriminator written by the
typetag-style type-erased serialization (`#[typetag::serde]` on the
`Register` impl, mpi_ibcast.rs line 52; the `Register` trait itself,
`crate::interpol::Register`, is not under src/). One tag per concrete
record shape. -/
inductive TypeTag where
  | mpiIbcast
  | mpiSend
deriving DecidableEq, Repr

/-- Modelled from the spec: the type-erased encoding of one record is its
shape tag together with its shape-specific field mapping (spec section 4.2:
the encoded representation carries enough of a discriminator that a decoder
can select the correct shape-specific decoder). -/
def encodeTagged : DynEvent → TypeTag × JMap
  | DynEvent.ibcast r => (TypeTag.mpiIbcast, encode r)
  | DynEvent.send s => (TypeTag.mpiSend, encodeSend s)

/-- Modelled from the spec: decoding one type-tagged record. The tag alone
selects the shape-specific decoder; the decoded concrete value is re-erased
into the stream element type. -/
def decodeTagged (x : TypeTag × JMap) : Except String DynEvent :=
  match x with
  | (TypeTag.mpiIbcast, m) => (decode m).map DynEvent.ibcast
  | (TypeTag.mpiSend, m) => (decodeSend m).map DynEvent.send

/-- Serializing a whole event log: the sequence of type-tagged encodings of
its records, in log order. -/
def encodeStream (evs : List DynEvent) : List (TypeTag × JMap) :=
  evs.map encodeTagged

/-- Deserializing a stream of type-tagged records, record by record,
failing on the first undecodable record. -/
def decodeStream : List (TypeTag × JMap) → Except String (List DynEvent)
  | [] => Except.ok []
  | x :: xs => do
    let e ← decodeTagged x
    let rest ← decodeStream xs
    Except.ok (e :: rest)

/-- A sample record, with the field values of the `builds` unit test. -/
def sampleIbcast : MpiIbcast := MpiIbcast.new 0 1 8 0 7 1024 2048

/-- A one-element log whose allocator ceiling (2) can accommodate one extra
slot on top of the current length, but not the two extra slots that
`register` actually requests. -/
def cexLog : EventLog :=
  { events := [DynEvent.ibcast sampleIbcast], cap := 1, memLimit := 2 }

/-- A one-element log whose allocator ceiling (1) refuses any growth, so
that the reservation made by `register` fails. -/
def failLog : EventLog :=
  { events := [DynEvent.ibcast sampleIbcast], cap := 1, memLimit := 1 }

/-- A successful `try_reserve_exact` never changes the stored elements. -/
lemma tryReserveExact_ok_events {l l₂ : EventLog} {a : Nat}
    (h : tryReserveExact l a = Except.ok l₂) : l₂.events = l.events := by
  unfold tryReserveExact at h
  split at h
  · cases h; rfl
  · split at h
    · cases h; rfl
    · cases h

/-- A successful `register` appends exactly the boxed record at the end. -/
lemma register_ok_events {rec : MpiIbcast} {log log₂ : EventLog} {u : Unit}
    (h : MpiIbcast.register rec log = (Except.ok u, log₂)) :
    log₂.events = log.events ++ [DynEvent.ibcast rec] := by
  unfold MpiIbcast.register at h
  cases hres : tryReserveExact log (registerReserveRequest log) with
  | error e => rw [hres] at h; cases h
  | ok l₂ =>
    rw [hres] at h
    injection h with h₁ h₂
    subst h₂
    simp [pushEvent, tryReserveExact_ok_events hres]

/-- A successful `registerAll` appends exactly the boxed records, in call
order, after the prior contents. -/
lemma registerAll_ok_events {rs : List MpiIbcast} {log log₂ : EventLog}
    {u : Unit} (h : registerAll rs log = (Except.ok u, log₂)) :
    log₂.events = log.events ++ rs.map DynEvent.ibcast := by
  induction rs generalizing log with
  | nil =>
    unfold registerAll at h
    injection h with h₁ h₂
    subst h₂
    simp
  | cons r rest ih =>
    unfold registerAll at h
    cases hreg : MpiIbcast.register r log with
    | mk res l₂ =>
      rw [hreg] at h
      cases res with
      | ok v =>
        rw [ih h, register_ok_events hreg]
        simp
      | error e => cases h

/-- C2: if the capacity reservation made by `register` fails, then
`register` returns that allocation error and the event log is left exactly
as it was — same length, same contents, same order, no partial mutation. -/
theorem register_alloc_failure_frame (rec : MpiIbcast) (log : EventLog)
    (e : TryReserveError)
    (h : tryReserveExact log (registerReserveRequest log) = Except.error e) :
    MpiIbcast.register rec log = (Except.error e, log) := by
  unfold MpiIbcast.register
  rw [h]

/-- Witness for C2: on a concrete full log whose allocator refuses growth,
`register` returns the allocation error and the identical log. -/
theorem register_alloc_failure_frame_witness :
    MpiIbcast.register sampleIbcast failLog =
      (Except.error TryReserveError.allocError, failLog) :=
  register_alloc_failure_frame sampleIbcast failLog TryReserveError.allocError
    rfl

/-- C6: on success, `register` leaves the log with exactly the old contents
followed by the boxed record: the new record is the last element, the length
grows by one, and every previously stored record keeps its position.
Consequently, registering a list of records into an empty log, when it
succeeds, yields exactly those records in insertion order. -/
theorem register_success_frame :
    (∀ (rec : MpiIbcast) (log log₂ : EventLog) (u : Unit),
        MpiIbcast.register rec log = (Except.ok u, log₂) →
        log₂.events = log.events ++ [DynEvent.ibcast rec] ∧
        log₂.events.length = log.events.length + 1 ∧
        ∀ i : Nat, i < log.events.length → log₂.events[i]? = log.events[i]?) ∧
    (∀ (m : Nat) (rs : List MpiIbcast) (log₂ : EventLog) (u : Unit),
        registerAll rs (emptyLog m) = (Except.ok u, log₂) →
        log₂.events = rs.map DynEvent.ibcast ∧
        log₂.events.length = rs.length) := by
  constructor
  · intro rec log log₂ u h
    have he := register_ok_events h
    refine ⟨he, by rw [he]; simp, ?_⟩
    intro i hi
    rw [he]
    simp [List.getElem?_append, hi]
  · intro m rs log₂ u h
    have he := registerAll_ok_events h
    have he₂ : log₂.events = rs.map DynEvent.ibcast := by
      simpa [emptyLog] using he
    exact ⟨he₂, by rw [he₂]; simp⟩

/-- Witness for C6: a concrete successful append to an empty log, and a
concrete successful batch registration. -/
theorem register_success_frame_witness :
    ((MpiIbcast.register sampleIbcast (emptyLog 5)).2.events =
      (emptyLog 5).events ++ [DynEvent.ibcast sampleIbcast]) ∧
    ((registerAll [sampleIbcast] (emptyLog 5)).2.events =
      [sampleIbcast].map DynEvent.ibcast) :=
  ⟨(register_success_frame.1 sampleIbcast (emptyLog 5)
      (MpiIbcast.register sampleIbcast (emptyLog 5)).2 () rfl).1,
   (register_success_frame.2 5 [sampleIbcast]
      (registerAll [sampleIbcast] (emptyLog 5)).2 () rfl).1⟩

/-- C1, counterexample: `register` does not request extra capacity equal to
the current length. On the concrete one-element log `cexLog` the request
actually made is 2, not the length 1; behaviourally, a reservation of one
extra slot (the claimed request) would succeed under the allocator ceiling
of `cexLog`, yet `register` fails with an allocation error — so the request
it makes is larger than the current length. -/
theorem register_reserve_len_cex :
    registerReserveRequest cexLog ≠ cexLog.events.length ∧
    (tryReserveExact cexLog cexLog.events.length).isOk = true ∧
    (MpiIbcast.register sampleIbcast cexLog).1 =
      Except.error TryReserveError.allocError :=
  ⟨by decide, rfl, rfl⟩

/-- C1, amended: before pushing, `register` requests extra backing capacity
equal to twice the current length of the log (the argument
`2 * events.len()` of `try_reserve_exact`); `register` succeeds exactly when
that reservation succeeds, and on an empty log the request degenerates to
zero extra capacity and the append succeeds unconditionally — it is not
treated as an error. -/
theorem register_reserve_two_len (rec : MpiIbcast) (log : EventLog) :
    registerReserveRequest log = 2 * log.events.length ∧
    (MpiIbcast.register rec log).1.isOk =
      (tryReserveExact log (registerReserveRequest log)).isOk ∧
    (log.events = [] → MpiIbcast.register rec log =
      (Except.ok (), pushEvent log (DynEvent.ibcast rec))) := by
  refine ⟨rfl, ?_, ?_⟩
  · unfold MpiIbcast.register
    cases h : tryReserveExact log (registerReserveRequest log) <;> rfl
  · intro hne
    simp [MpiIbcast.register, registerReserveRequest, tryReserveExact, hne]

/-- Witness for C1 (amended): appending to a concrete empty log with a
zero allocator ceiling still succeeds, because the degenerate request asks
for nothing. -/
theorem register_reserve_two_len_witness :
    MpiIbcast.register sampleIbcast (emptyLog 0) =
      (Except.ok (), pushEvent (emptyLog 0) (DynEvent.ibcast sampleIbcast)) :=
  (register_reserve_two_len sampleIbcast (emptyLog 0)).2.2 rfl

/-- C3: setting every field through the builder and calling `build()`
produces exactly the record that the direct constructor `new` produces from
the same field values (the `builds` unit test, generalized to all values). -/
theorem builder_constructor_equiv (cr rr : MpiRank) (nb : Nat) (c : MpiComm)
    (rq : MpiReq) (t d : Tsc) :
    (((((((MpiIbcastBuilder.mkDefault.setCurrentRank cr).setRootRank
          rr).setNbBytes nb).setComm c).setReq rq).setTsc t).setDuration
          d).build =
      Except.ok (MpiIbcast.new cr rr nb c rq t d) := rfl

/-- C4: decoding the encoding of any `MpiIbcast` record reconstructs the
record exactly, field for field (the `deserializes` unit test, generalized
to all records). -/
theorem decode_encode_roundtrip (r : MpiIbcast) :
    decode (encode r) = Except.ok r := rfl

/-- C5: encoding the example record with values current_rank=0, root_rank=0,
nb_bytes=8, comm=0, req=7, tsc=1024, duration=2048 produces the
field-name-to-value mapping in exactly the fixed order current_rank,
root_rank, nb_bytes, comm, req, tsc, duration (the `serializes` unit
test). -/
theorem encode_field_order_example :
    encode (MpiIbcast.new 0 0 8 0 7 1024 2048) =
      [(FieldName.current_rank, 0), (FieldName.root_rank, 0),
       (FieldName.nb_bytes, 8), (FieldName.comm, 0), (FieldName.req, 7),
       (FieldName.tsc, 1024), (FieldName.duration, 2048)] := rfl

/-- C8: decoding a type-tagged stream reconstructs the exact original
sequence of concrete records, in order: the tag attached to each encoded
record is enough for the type-erased decoder to select the correct
shape-specific decoder, for streams freely mixing the record shapes. -/
theorem stream_decode_roundtrip (evs : List DynEvent) :
    decodeStream (encodeStream evs) = Except.ok evs := by
  induction evs with
  | nil => rfl
  | cons e es ih =>
    have he : decodeTagged (encodeTagged e) = Except.ok e := by
      cases e <;> rfl
    simp [encodeStream, decodeStream, he] at ih ⊢
    rw [ih]
    rfl

/-- The staged `current_rank` slot is filled after a sequence of setter
calls exactly when it was already filled or some call in the sequence set
it. -/
lemma applyCalls_currentRank (cs : List SetterCall) (b : MpiIbcastBuilder) :
    (applyCalls b cs).current_rank.isSome =
      (b.current_rank.isSome || cs.any setsCurrentRank) := by
  induction cs generalizing b with
  | nil => simp [applyCalls]
  | cons c cs ih =>
    rw [show applyCalls b (c :: cs) = applyCalls (applyCall b c) cs from rfl,
      ih]
    cases c <;>
      simp [applyCall, MpiIbcastBuilder.setCurrentRank,
        MpiIbcastBuilder.setRootRank, MpiIbcastBuilder.setNbBytes,
        MpiIbcastBuilder.setComm, MpiIbcastBuilder.setReq,
        MpiIbcastBuilder.setTsc, MpiIbcastBuilder.setDuration,
        setsCurrentRank, Bool.or_assoc]

/-- Analogue of the previous lemma for the `root_rank` slot. -/
lemma applyCalls_rootRank (cs : List SetterCall) (b : MpiIbcastBuilder) :
    (applyCalls b cs).root_rank.isSome =
      (b.root_rank.isSome || cs.any setsRootRank) := by
  induction cs generalizing b with
  | nil => simp [applyCalls]
  | cons c cs ih =>
    rw [show applyCalls b (c :: cs) = applyCalls (applyCall b c) cs from rfl,
      ih]
    cases c <;>
      simp [applyCall, MpiIbcastBuilder.setCurrentRank,
        MpiIbcastBuilder.setRootRank, MpiIbcastBuilder.setNbBytes,
        MpiIbcastBuilder.setComm, MpiIbcastBuilder.setReq,
        MpiIbcastBuilder.setTsc, MpiIbcastBuilder.setDuration,
        setsRootRank, Bool.or_assoc]

/-- Analogue of the previous lemma for the `nb_bytes` slot. -/
lemma applyCalls_nbBytes (cs : List SetterCall) (b : MpiIbcastBuilder) :
    (applyCalls b cs).nb_bytes.isSome =
      (b.nb_bytes.isSome || cs.any setsNbBytes) := by
  induction cs generalizing b with
  | nil => simp [applyCalls]
  | cons c cs ih =>
    rw [show applyCalls b (c :: cs) = applyCalls (applyCall b c) cs from rfl,
      ih]
    cases c <;>
      simp [applyCall, MpiIbcastBuilder.setCurrentRank,
        MpiIbcastBuilder.setRootRank, MpiIbcastBuilder.setNbBytes,
        MpiIbcastBuilder.setComm, MpiIbcastBuilder.setReq,
        MpiIbcastBuilder.setTsc, MpiIbcastBuilder.setDuration,
        setsNbBytes, Bool.or_assoc]

/-- Analogue of the previous lemma for the `comm` slot. -/
lemma applyCalls_comm (cs : List SetterCall) (b : MpiIbcastBuilder) :
    (applyCalls b cs).comm.isSome = (b.comm.isSome || cs.any setsComm) := by
  induction cs generalizing b with
  | nil => simp [applyCalls]
  | cons c cs ih =>
    rw [show applyCalls b (c :: cs) = applyCalls (applyCall b c) cs from rfl,
      ih]
    cases c <;>
      simp [applyCall, MpiIbcastBuilder.setCurrentRank,
        MpiIbcastBuilder.setRootRank, MpiIbcastBuilder.setNbBytes,
        MpiIbcastBuilder.setComm, MpiIbcastBuilder.setReq,
        MpiIbcastBuilder.setTsc, MpiIbcastBuilder.setDuration,
        setsComm, Bool.or_assoc]

/-- Analogue of the previous lemma for the `req` slot. -/
lemma applyCalls_req (cs : List SetterCall) (b : MpiIbcastBuilder) :
    (applyCalls b cs).req.isSome = (b.req.isSome || cs.any setsReq) := by
  induction cs generalizing b with
  | nil => simp [applyCalls]
  | cons c cs ih =>
    rw [show applyCalls b (c :: cs) = applyCalls (applyCall b c) cs from rfl,
      ih]
    cases c <;>
      simp [applyCall, MpiIbcastBuilder.setCurrentRank,
        MpiIbcastBuilder.setRootRank, MpiIbcastBuilder.setNbBytes,
        MpiIbcastBuilder.setComm, MpiIbcastBuilder.setReq,
        MpiIbcastBuilder.setTsc, MpiIbcastBuilder.setDuration,
        setsReq, Bool.or_assoc]

/-- Analogue of the previous lemma for the `tsc` slot. -/
lemma applyCalls_tsc (cs : List SetterCall) (b : MpiIbcastBuilder) :
    (applyCalls b cs).tsc.isSome = (b.tsc.isSome || cs.any setsTsc) := by
  induction cs generalizing b with
  | nil => simp [applyCalls]
  | cons c cs ih =>
    rw [show applyCalls b (c :: cs) = applyCalls (applyCall b c) cs from rfl,
      ih]
    cases c <;>
      simp [applyCall, MpiIbcastBuilder.setCurrentRank,
        MpiIbcastBuilder.setRootRank, MpiIbcastBuilder.setNbBytes,
        MpiIbcastBuilder.setComm, MpiIbcastBuilder.setReq,
        MpiIbcastBuilder.setTsc, MpiIbcastBuilder.setDuration,
        setsTsc, Bool.or_assoc]

/-- Analogue of the previous lemma for the `duration` slot. -/
lemma applyCalls_duration (cs : List SetterCall) (b : MpiIbcastBuilder) :
    (applyCalls b cs).duration.isSome =
      (b.duration.isSome || cs.any setsDuration) := by
  induction cs generalizing b with
  | nil => simp [applyCalls]
  | cons c cs ih =>
    rw [show applyCalls b (c :: cs) = applyCalls (applyCall b c) cs from rfl,
      ih]
    cases c <;>
      simp [applyCall, MpiIbcastBuilder.setCurrentRank,
        MpiIbcastBuilder.setRootRank, MpiIbcastBuilder.setNbBytes,
        MpiIbcastBuilder.setComm, MpiIbcastBuilder.setReq,
        MpiIbcastBuilder.setTsc, MpiIbcastBuilder.setDuration,
        setsDuration, Bool.or_assoc]

/-- Whether `build` succeeds is exactly whether every staged slot is
filled. -/
lemma build_isOk_iff_all_some (b : MpiIbcastBuilder) :
    b.build.isOk =
      (b.current_rank.isSome && b.root_rank.isSome && b.nb_bytes.isSome &&
       b.comm.isSome && b.req.isSome && b.tsc.isSome &&
       b.duration.isSome) := by
  obtain ⟨cr, rr, nb, c, rq, t, d⟩ := b
  cases cr <;> cases rr <;> cases nb <;> cases c <;> cases rq <;> cases t <;>
    cases d <;> rfl

/-- An `Except` value is an error exactly when it is not ok. -/
lemma except_error_iff_not_isOk {E A : Type} (x : Except E A) :
    (∃ err, x = Except.error err) ↔ x.isOk = false := by
  cases x <;> simp [Except.isOk, Except.toBool]

/-- C7: for every sequence of builder setter calls starting from the default
builder, `build()` fails with a construction error if and only if at least
one of the required fields was never set by any call in the sequence. (The
error value carries only the offending field name: by the type of `build`,
no partial record is returned on failure.) -/
theorem build_fails_iff_missing (cs : List SetterCall) :
    (∃ err,
        (applyCalls MpiIbcastBuilder.mkDefault cs).build = Except.error err)
      ↔ (cs.any setsCurrentRank = false ∨ cs.any setsRootRank = false ∨
         cs.any setsNbBytes = false ∨ cs.any setsComm = false ∨
         cs.any setsReq = false ∨ cs.any setsTsc = false ∨
         cs.any setsDuration = false) := by
  rw [except_error_iff_not_isOk, build_isOk_iff_all_some,
    applyCalls_currentRank, applyCalls_rootRank, applyCalls_nbBytes,
    applyCalls_comm, applyCalls_req, applyCalls_tsc, applyCalls_duration]
  simp only [MpiIbcastBuilder.mkDefault, Option.isSome_none, Bool.false_or]
  simp only [Bool.and_eq_false_iff]
  tauto

/-- Witness for C7: a concrete setter sequence that sets only
`current_rank` leaves `build()` failing. -/
theorem build_fails_iff_missing_witness :
    (applyCalls MpiIbcastBuilder.mkDefault
      [SetterCall.currentRank 0]).build.isOk = false := by
  have h := (build_fails_iff_missing [SetterCall.currentRank 0]).mpr
    (Or.inr (Or.inl rfl))
  obtain ⟨err, he⟩ := h
  rw [he]
  rfl

/-- Name-based lookup is invariant under permutation of an encoded mapping
whose field names are pairwise distinct. -/
lemma lookupF_eq_of_perm (k : FieldName) {m₁ m₂ : JMap} (h : m₁.Perm m₂) :
    (m₂.map Prod.fst).Nodup → lookupF k m₁ = lookupF k m₂ := by
  induction h with
  | nil => intro _; rfl
  | cons x h ih =>
    rename_i l₁ l₂
    obtain ⟨a, va⟩ := x
    intro hnd
    have hnd' : (a :: l₂.map Prod.fst).Nodup := by
      simpa only [List.map_cons] using hnd
    have hnd₂ := (List.nodup_cons.mp hnd').2
    by_cases hk : k = a
    · simp [lookupF, hk]
    · simp [lookupF, hk, ih hnd₂]
  | swap x y l =>
    obtain ⟨a, va⟩ := x
    obtain ⟨b, vb⟩ := y
    intro hnd
    have hnd' : (a :: b :: l.map Prod.fst).Nodup := by
      simpa only [List.map_cons] using hnd
    have hab : a ≠ b := by
      intro he
      exact (List.nodup_cons.mp hnd').1
        (he ▸ List.mem_cons_self b (l.map Prod.fst))
    by_cases h₁ : k = a <;> by_cases h₂ : k = b
    · exact absurd (h₁.symm.trans h₂) hab
    · simp [lookupF, h₁, h₂, hab]
    · simp [lookupF, h₁, h₂, Ne.symm hab]
    · simp [lookupF, h₁, h₂]
  | trans h₁ h₂ ih₁ ih₂ =>
    intro hnd
    have nd₂ := (h₂.map Prod.fst).nodup_iff.mpr hnd
    exact (ih₁ nd₂).trans (ih₂ hnd)

/-- The field names in the encoding of a record are pairwise distinct. -/
lemma encode_keys_nodup (r : MpiIbcast) :
    ((encode r).map Prod.fst).Nodup := by
  have hkeys : (encode r).map Prod.fst =
      [FieldName.current_rank, FieldName.root_rank, FieldName.nb_bytes,
       FieldName.comm, FieldName.req, FieldName.tsc, FieldName.duration] :=
    rfl
  rw [hkeys]
  decide

/-- C10: the decoder binds encoded entries to record fields by name, not by
position — decoding any permutation of the encoding of a record succeeds
and yields the record itself, exactly as decoding the mapping in canonical
field order does. -/
theorem decode_perm_invariant (r : MpiIbcast) (m : JMap)
    (h : m.Perm (encode r)) : decode m = Except.ok r := by
  have hk : ∀ k, lookupF k m = lookupF k (encode r) := fun k =>
    lookupF_eq_of_perm k h (encode_keys_nodup r)
  have hm : decode m = decode (encode r) := by
    simp only [decode, getField, hk]
  rw [hm]
  rfl

/-- Witness for C10: the reversed encoding of a concrete record — the
canonical order turned back to front — still decodes to the record. -/
theorem decode_perm_invariant_witness :
    decode (encode sampleIbcast).reverse = Except.ok sampleIbcast :=
  decode_perm_invariant sampleIbcast (encode sampleIbcast).reverse
    (List.reverse_perm (encode sampleIbcast))

end Interpol
